import Mathlib

/-!
Shallow embedding of the `DirectedGraph` C++ program
(src/directed_graph/DirectedGraph.hpp / .cpp and src/main.cpp).

Modelling conventions:
* A C++ `Vertex*` handle is modelled by the vertex's numeric id (`Nat`).
  `addVertex` allocates each vertex fresh and ids are minted by a
  monotonically increasing counter, so among the vertices a graph ever
  creates the pointer-to-id correspondence is a bijection; the spec's own
  design notes prescribe exactly this arena+id view of handles.
* `m_vertices : std::unordered_map<const Vertex*, std::unique_ptr<Vertex>>`
  becomes an association list of pairs `(key, ownedValue)`, both of type
  `Vertex`: the key models the object the key pointer refers to, the value
  the object held by the `unique_ptr`.  `addVertex` inserts
  `(rawPointer, std::move(vertex))`, i.e. a pair whose two components are
  the same vertex; keeping both components lets the const overload of
  `getVertices` (which reads `kvPair.first`) and the non-const one (which
  reads `kvPair.second.get()`) be translated separately.
* `m_edges : std::unordered_map<const Vertex*, std::unordered_set<Vertex*>>`
  becomes an association list from id to a duplicate-free list of ids.
  `operator[]` of `std::unordered_map` (used by `addEdge`, `removeEdge` and
  the non-const `getSuccessors`) default-inserts an empty entry when the key
  is missing; `edgesGetOrInsert` models this faithfully.
* Iteration order of the unordered containers is unspecified in C++; the
  lists record one concrete such order (insertion order).  `std::sort` with
  the strict `lhs->getID() < rhs->getID()` comparator produces some
  nondecreasing-by-id reordering; it is modelled by `List.insertionSort`
  with the reflexive closure of that comparator, which produces one such
  reordering deterministically.
* The `assert`s at the head of `addEdge` (both handles must be owned by the
  graph) abort the program when they fail, so `addEdge` returns an `Option`:
  `none` models the assertion failure.
-/

/-- Source `class Vertex`: an id (`size_t m_id`) plus an `int` payload (`m_data`). -/
structure Vertex where
  m_id : Nat
  m_data : Int
deriving DecidableEq, Repr

/-- Source `Vertex::getID`. -/
def Vertex.getID (v : Vertex) : Nat := v.m_id

/-- Source `Vertex::getData`. -/
def Vertex.getData (v : Vertex) : Int := v.m_data

/-- Source `Vertex::setData`. -/
def Vertex.setData (v : Vertex) (data : Int) : Vertex := { v with m_data := data }

/-- Source `Vertex::toString`: renders as `"v" + std::to_string(m_id)`. -/
def Vertex.toString (v : Vertex) : String := "v" ++ Nat.repr v.m_id

/-- Source `Vertex::operator==`: equality on ids only. -/
def Vertex.eq (u v : Vertex) : Bool := u.getID == v.getID

/-- The `DirectedGraph` state: the id counter and the two unordered maps. -/
structure DirectedGraph where
  m_vertexCounter : Nat
  m_vertices : List (Vertex × Vertex)
  m_edges : List (Nat × List Nat)
deriving DecidableEq, Repr

/-- Source `DirectedGraph::DirectedGraph()`: counter 0, both maps empty. -/
def DirectedGraph.empty : DirectedGraph := ⟨0, [], []⟩

/-- Source `m_vertices.find(&u) != m_vertices.end()`: key lookup in the vertex map. -/
def DirectedGraph.containsVertex (g : DirectedGraph) (u : Nat) : Bool :=
  g.m_vertices.any (fun p => p.1.getID == u)

/-- Lookup of a key in the edges map (`m_edges.find` / `m_edges.at`). -/
def edgesLookup (es : List (Nat × List Nat)) (u : Nat) : Option (List Nat) :=
  (es.find? (fun p => p.1 == u)).map (fun p => p.2)

/-- Source `m_edges[&u]` insertion effect: default-insert an empty successor set
when the key is missing, otherwise leave the map unchanged. -/
def edgesGetOrInsert (es : List (Nat × List Nat)) (u : Nat) : List (Nat × List Nat) :=
  if (edgesLookup es u).isSome then es else es ++ [(u, [])]

/-- In-place mutation of the successor set the reference `m_edges[&u]`
points at: replace the set stored under key `u`. -/
def edgesSet (es : List (Nat × List Nat)) (u : Nat) (s : List Nat) : List (Nat × List Nat) :=
  es.map (fun p => if p.1 == u then (u, s) else p)

/-- Source `DirectedGraph::addVertex`: create a vertex with id `m_vertexCounter`,
increment the counter, emplace `(rawPointer, std::move(vertex))`, return the
raw pointer (modelled by returning the vertex itself as the handle). -/
def DirectedGraph.addVertex (g : DirectedGraph) (data : Int) : Vertex × DirectedGraph :=
  let vertex : Vertex := ⟨g.m_vertexCounter, data⟩
  (vertex,
   { g with
     m_vertexCounter := g.m_vertexCounter + 1
     m_vertices := g.m_vertices ++ [(vertex, vertex)] })

/-- Source `DirectedGraph::addEdge(u, v)`: assert both vertices are owned (`none`
models assertion failure), take `uSuccessors = m_edges[&u]` (default-insert),
return `false` without modification when `v` is already a successor,
otherwise insert `v` and return `true`. -/
def DirectedGraph.addEdge (g : DirectedGraph) (u v : Nat) : Option (Bool × DirectedGraph) :=
  if g.containsVertex u && g.containsVertex v then
    let es := edgesGetOrInsert g.m_edges u
    let uSuccessors := (edgesLookup es u).getD []
    if uSuccessors.contains v then
      some (false, { g with m_edges := es })
    else
      some (true, { g with m_edges := edgesSet es u (uSuccessors ++ [v]) })
  else
    none

/-- Source `DirectedGraph::removeVertex(u)`: when `u` is owned, erase it from
`m_vertices`, erase its `m_edges` entry, and erase `u` from every remaining
successor set, returning `true`; otherwise do nothing and return `false`. -/
def DirectedGraph.removeVertex (g : DirectedGraph) (u : Nat) : Bool × DirectedGraph :=
  if g.containsVertex u then
    (true,
     { g with
       m_vertices := g.m_vertices.filter (fun p => !(p.1.getID == u))
       m_edges := (g.m_edges.filter (fun p => !(p.1 == u))).map
         (fun p => (p.1, p.2.filter (fun w => !(w == u)))) })
  else
    (false, g)

/-- Source `DirectedGraph::removeEdge(u, v)`: when both vertices are owned, take
`uSuccessors = m_edges[&u]` (default-insert), erase `v` from it and return
`true` when present, else return `false`; when either vertex is missing,
return `false`. -/
def DirectedGraph.removeEdge (g : DirectedGraph) (u v : Nat) : Bool × DirectedGraph :=
  if g.containsVertex u && g.containsVertex v then
    let es := edgesGetOrInsert g.m_edges u
    let uSuccessors := (edgesLookup es u).getD []
    if uSuccessors.contains v then
      (true, { g with m_edges := edgesSet es u (uSuccessors.filter (fun w => !(w == v))) })
    else
      (false, { g with m_edges := es })
  else
    (false, g)

/-- Non-const `DirectedGraph::getVertices`: push `kvPair.second.get()` for
every entry of `m_vertices` (the owned values). -/
def DirectedGraph.getVertices (g : DirectedGraph) : List Vertex :=
  g.m_vertices.map (fun p => p.2)

/-- Const `DirectedGraph::getVertices`: push `kvPair.first` for every entry
of `m_vertices` (the keys). -/
def DirectedGraph.getVerticesConst (g : DirectedGraph) : List Vertex :=
  g.m_vertices.map (fun p => p.1)

/-- Non-const `DirectedGraph::getSuccessors(u)`: read `m_edges[&u]`
(default-inserting an empty entry) and return its elements, together with
the possibly updated graph state. -/
def DirectedGraph.getSuccessorsMut (g : DirectedGraph) (u : Nat) : List Nat × DirectedGraph :=
  let es := edgesGetOrInsert g.m_edges u
  ((edgesLookup es u).getD [], { g with m_edges := es })

/-- Const `DirectedGraph::getSuccessors(u)`: if `m_edges` has an entry for
`u` return its elements, else return the empty vector. -/
def DirectedGraph.getSuccessorsConst (g : DirectedGraph) (u : Nat) : List Nat :=
  match edgesLookup g.m_edges u with
  | some uSuccessors => uSuccessors
  | none => []

/-- The comparator `lhs->getID() < rhs->getID()` of `toSortedVertices`, as
the nonstrict order used by the deterministic model sort. -/
def vertexLE (a b : Vertex) : Prop := a.getID ≤ b.getID

instance : DecidableRel vertexLE := fun a b => Nat.decLe a.getID b.getID

instance : IsTotal Vertex vertexLE := ⟨fun a b => Nat.le_total a.getID b.getID⟩

instance : IsTrans Vertex vertexLE := ⟨fun _ _ _ h1 h2 => Nat.le_trans h1 h2⟩

/-- Source `toSortedVertices` instantiated at the vertex list produced by the const
`getVertices` (copy and sort ascending by id). -/
def toSortedVertices (l : List Vertex) : List Vertex :=
  List.insertionSort vertexLE l

/-- Source `toSortedVertices` instantiated at a successor set: in the model the
elements of a successor set are ids already, so they sort by `≤` on `Nat`. -/
def toSortedIds (l : List Nat) : List Nat :=
  List.insertionSort (fun a b => a ≤ b) l

/-- Source `Vertex::toString` applied to the vertex a successor id refers to:
rendering is a function of the id alone. -/
def renderId (i : Nat) : String := "v" ++ Nat.repr i

/-- Source `DirectedGraph::toString`: header, the sorted vertices one per line,
then for each vertex in sorted order its sorted successor edges one per
line; a vertex with no `m_edges` entry contributes nothing. -/
def DirectedGraph.toString (g : DirectedGraph) : String :=
  let s0 := "DirectedGraph:\n" ++ "  vertices:\n"
  let sortedVertices := toSortedVertices g.getVerticesConst
  let s1 := s0 ++ String.join (sortedVertices.map (fun v => "    " ++ v.toString ++ "\n"))
  let s2 := s1 ++ "  edges:\n"
  s2 ++ String.join (sortedVertices.map (fun u =>
    match edgesLookup g.m_edges u.getID with
    | some uSuccessors =>
        String.join ((toSortedIds uSuccessors).map
          (fun v => "    " ++ u.toString ++ " -> " ++ renderId v ++ "\n"))
    | none => ""))

/-- The directed edge relation the graph currently stores: `v` is in `u`'s
successor set. -/
def DirectedGraph.hasEdge (g : DirectedGraph) (u v : Nat) : Bool :=
  ((edgesLookup g.m_edges u).getD []).contains v

/-- The ids of the currently owned vertices (keys of `m_vertices`). -/
def DirectedGraph.vertexIDs (g : DirectedGraph) : List Nat :=
  g.m_vertices.map (fun p => p.1.getID)

/-- The spec's adjacency invariant: every key of `m_edges` with a nonempty
successor set is a currently owned vertex, and every member of every
successor set is a currently owned vertex (an entry with an empty successor
set is exempt). -/
def DirectedGraph.Inv (g : DirectedGraph) : Prop :=
  ∀ p ∈ g.m_edges,
    (p.2 ≠ [] → g.containsVertex p.1 = true) ∧ ∀ v ∈ p.2, g.containsVertex v = true

/-- Structural well-formedness every API-reachable graph state enjoys. -/
structure DirectedGraph.Good (g : DirectedGraph) : Prop where
  keysOwn : ∀ p ∈ g.m_vertices, p.1 = p.2
  counterBound : ∀ i ∈ g.vertexIDs, i < g.m_vertexCounter
  idsNodup : g.vertexIDs.Nodup
  succNodup : ∀ p ∈ g.m_edges, p.2.Nodup
  inv : g.Inv

/-- The graph states reachable from the default-constructed graph through
the public mutating interface. -/
inductive DirectedGraph.Reachable : DirectedGraph → Prop where
  | empty : DirectedGraph.Reachable DirectedGraph.empty
  | addVertex {g : DirectedGraph} (d : Int) :
      DirectedGraph.Reachable g → DirectedGraph.Reachable (g.addVertex d).2
  | addEdge {g g2 : DirectedGraph} {u v : Nat} {b : Bool} :
      DirectedGraph.Reachable g → g.addEdge u v = some (b, g2) →
      DirectedGraph.Reachable g2
  | removeVertex {g : DirectedGraph} (u : Nat) :
      DirectedGraph.Reachable g → DirectedGraph.Reachable (g.removeVertex u).2
  | removeEdge {g : DirectedGraph} (u v : Nat) :
      DirectedGraph.Reachable g → DirectedGraph.Reachable (g.removeEdge u v).2
  | getSuccessorsMut {g : DirectedGraph} (u : Nat) :
      DirectedGraph.Reachable g → DirectedGraph.Reachable (g.getSuccessorsMut u).2

/-- One call of the demonstration harness in `main.cpp`, acting on a graph. -/
inductive GraphOp where
  | addV (data : Int)
  | addE (u v : Nat)
  | remV (u : Nat)
  | remE (u v : Nat)
  | getSucc (u : Nat)

/-- Run a list of operations from a starting state, recording in order the
ids of the handles the `addVertex` calls return; `none` when some `addEdge`
assertion fails (the program aborts). -/
def runOps (g : DirectedGraph) : List GraphOp → Option (DirectedGraph × List Nat)
  | [] => some (g, [])
  | GraphOp.addV d :: ops =>
      let r := g.addVertex d
      (runOps r.2 ops).map (fun q => (q.1, r.1.getID :: q.2))
  | GraphOp.addE u v :: ops => (g.addEdge u v).bind (fun r => runOps r.2 ops)
  | GraphOp.remV u :: ops => runOps (g.removeVertex u).2 ops
  | GraphOp.remE u v :: ops => runOps (g.removeEdge u v).2 ops
  | GraphOp.getSucc u :: ops => runOps (g.getSuccessorsMut u).2 ops

/-- Number of `addVertex` calls in an operation list. -/
def countAddV : List GraphOp → Nat
  | [] => 0
  | GraphOp.addV _ :: ops => countAddV ops + 1
  | _ :: ops => countAddV ops

/-- The graph of `test_DirectedGraph_setup` after its four `addVertex`
calls (payloads 0,1,2,3). -/
def c1graph4 : DirectedGraph :=
  ((((DirectedGraph.empty.addVertex 0).2.addVertex 1).2.addVertex 2).2.addVertex 3).2

/-- The ids of the four handles `test_DirectedGraph_setup` receives. -/
def c1ids : List Nat :=
  [(DirectedGraph.empty.addVertex 0).1.getID,
   ((DirectedGraph.empty.addVertex 0).2.addVertex 1).1.getID,
   (((DirectedGraph.empty.addVertex 0).2.addVertex 1).2.addVertex 2).1.getID,
   ((((DirectedGraph.empty.addVertex 0).2.addVertex 1).2.addVertex 2).2.addVertex 3).1.getID]

/-- The five `addEdge` calls of `test_DirectedGraph_setup`, chained; the
value is the result of the final, repeated `addEdge(2, 3)`. -/
def c1run : Option (Bool × DirectedGraph) :=
  (c1graph4.addEdge 0 0).bind fun p1 =>
  (p1.2.addEdge 0 1).bind fun p2 =>
  (p2.2.addEdge 0 3).bind fun p3 =>
  (p3.2.addEdge 2 3).bind fun p4 =>
  p4.2.addEdge 2 3

/-- The literal expected string of `test_DirectedGraph_setup`. -/
def c1expected : String :=
  "DirectedGraph:\n" ++ "  vertices:\n" ++ "    v0\n" ++ "    v1\n" ++ "    v2\n"
    ++ "    v3\n" ++ "  edges:\n" ++ "    v0 -> v0\n" ++ "    v0 -> v1\n"
    ++ "    v0 -> v3\n" ++ "    v2 -> v3\n"

/-- The successor set the graph currently stores for `u` (empty when `u` has
no `m_edges` entry): the observable adjacency of `u`. -/
def DirectedGraph.succOf (g : DirectedGraph) (u : Nat) : List Nat :=
  (edgesLookup g.m_edges u).getD []

/-- One line of the `vertices` section of `toString`. -/
def vertexLine (i : Nat) : String := "    " ++ renderId i ++ "\n"

/-- One line of the `edges` section of `toString`. -/
def edgeLine (i v : Nat) : String := "    " ++ renderId i ++ " -> " ++ renderId v ++ "\n"

/-- The lines `toString` emits for the outgoing edges of the vertex with id
`i`. -/
def edgeLinesD (g : DirectedGraph) (i : Nat) : String :=
  String.join ((toSortedIds (g.succOf i)).map (edgeLine i))

/-- The sorted list of owned vertex ids. -/
def sortedIDs (g : DirectedGraph) : List Nat := toSortedIds g.vertexIDs

/-- A two-vertex graph (ids 0 and 1) with no edges, built through the API. -/
def c6g : DirectedGraph := ((DirectedGraph.empty.addVertex 0).2.addVertex 1).2

/-- Three vertices (payloads 0,1,2), edge 0->1 inserted before 0->2. -/
def c2g1 : DirectedGraph :=
  DirectedGraph.mk 3
    [((⟨0, 0⟩ : Vertex), (⟨0, 0⟩ : Vertex)), ((⟨1, 1⟩ : Vertex), (⟨1, 1⟩ : Vertex)),
     ((⟨2, 2⟩ : Vertex), (⟨2, 2⟩ : Vertex))]
    [(0, [1, 2])]

/-- Three vertices (payloads 9,8,7), edge 0->2 inserted before 0->1. -/
def c2g2 : DirectedGraph :=
  DirectedGraph.mk 3
    [((⟨0, 9⟩ : Vertex), (⟨0, 9⟩ : Vertex)), ((⟨1, 8⟩ : Vertex), (⟨1, 8⟩ : Vertex)),
     ((⟨2, 7⟩ : Vertex), (⟨2, 7⟩ : Vertex))]
    [(0, [2, 1])]

/-! ### Basic lemmas about the association-list operations -/

theorem edgesLookup_cons (p : Nat × List Nat) (es : List (Nat × List Nat)) (w : Nat) :
    edgesLookup (p :: es) w = if p.1 == w then some p.2 else edgesLookup es w := by
  unfold edgesLookup
  rw [List.find?]
  cases h : p.1 == w <;> simp [h]

theorem edgesLookup_append (es1 es2 : List (Nat × List Nat)) (w : Nat) :
    edgesLookup (es1 ++ es2) w = (edgesLookup es1 w).or (edgesLookup es2 w) := by
  unfold edgesLookup
  rw [List.find?_append]
  cases List.find? (fun p => p.1 == w) es1 <;> simp

theorem edgesLookup_getOrInsert (es : List (Nat × List Nat)) (u w : Nat) :
    edgesLookup (edgesGetOrInsert es u) w =
      if w = u then some ((edgesLookup es u).getD []) else edgesLookup es w := by
  unfold edgesGetOrInsert
  by_cases h : (edgesLookup es u).isSome
  · rcases Option.isSome_iff_exists.1 h with ⟨s, hs⟩
    rw [if_pos h]
    by_cases hw : w = u
    · subst hw; rw [if_pos rfl, hs]; rfl
    · rw [if_neg hw]
  · rw [if_neg h]
    have hnone : edgesLookup es u = none := Option.not_isSome_iff_eq_none.1 h
    rw [edgesLookup_append]
    by_cases hw : w = u
    · subst hw
      rw [hnone, if_pos rfl]
      simp [edgesLookup_cons]
    · rw [if_neg hw]
      have : edgesLookup [(u, ([] : List Nat))] w = none := by
        rw [edgesLookup_cons]
        simp [edgesLookup]
        intro h2
        exact absurd h2.symm hw
      rw [this]
      cases edgesLookup es w <;> rfl

theorem edgesLookup_edgesSet (es : List (Nat × List Nat)) (u : Nat) (s : List Nat) (w : Nat) :
    edgesLookup (edgesSet es u s) w =
      if w = u then (edgesLookup es u).map (fun _ => s) else edgesLookup es w := by
  induction es with
  | nil =>
      by_cases hw : w = u <;> simp [edgesSet, edgesLookup, hw]
  | cons p es ih =>
      have hset : edgesSet (p :: es) u s
          = (if p.1 == u then (u, s) else p) :: edgesSet es u s := rfl
      by_cases hpu : p.1 = u
      · by_cases hw : w = u
        · subst hw
          simp [hset, edgesLookup_cons, hpu]
        · have huw : ¬(u = w) := fun h => hw h.symm
          have hpw : ¬(p.1 = w) := hpu ▸ huw
          simp [hset, edgesLookup_cons, hpu, huw, hpw, ih, hw]
      · by_cases hw : w = u
        · subst hw
          simp [hset, edgesLookup_cons, hpu, ih]
        · by_cases hpw : p.1 = w
          · simp [hset, edgesLookup_cons, hpu, hpw, hw]
          · simp [hset, edgesLookup_cons, hpu, hpw, hw, ih]

theorem mem_edgesGetOrInsert {p : Nat × List Nat} {es : List (Nat × List Nat)} {u : Nat}
    (h : p ∈ edgesGetOrInsert es u) : p ∈ es ∨ p = (u, []) := by
  unfold edgesGetOrInsert at h
  by_cases hs : (edgesLookup es u).isSome
  · rw [if_pos hs] at h; exact Or.inl h
  · rw [if_neg hs] at h
    rcases List.mem_append.1 h with h1 | h1
    · exact Or.inl h1
    · simp at h1; exact Or.inr h1

theorem mem_edgesSet {p : Nat × List Nat} {es : List (Nat × List Nat)} {u : Nat} {s : List Nat}
    (h : p ∈ edgesSet es u s) : p = (u, s) ∨ p ∈ es := by
  unfold edgesSet at h
  rcases List.mem_map.1 h with ⟨q, hq, hqe⟩
  by_cases hqu : q.1 = u
  · left; rw [← hqe]; simp [hqu]
  · right
    have : (q.1 == u) = false := by simpa using hqu
    rw [← hqe]; simp [this]; exact hq

theorem containsVertex_iff (g : DirectedGraph) (u : Nat) :
    g.containsVertex u = true ↔ u ∈ g.vertexIDs := by
  unfold DirectedGraph.containsVertex DirectedGraph.vertexIDs
  rw [List.any_eq_true]
  constructor
  · rintro ⟨p, hp, he⟩
    exact List.mem_map.2 ⟨p, hp, by simpa using he⟩
  · rintro h
    rcases List.mem_map.1 h with ⟨p, hp, he⟩
    exact ⟨p, hp, by simpa using he⟩

theorem hasEdge_iff (g : DirectedGraph) (u v : Nat) :
    g.hasEdge u v = true ↔ v ∈ g.succOf u := by
  unfold DirectedGraph.hasEdge DirectedGraph.succOf
  simp

theorem getSuccessorsConst_eq_succOf (g : DirectedGraph) (u : Nat) :
    g.getSuccessorsConst u = g.succOf u := by
  unfold DirectedGraph.getSuccessorsConst DirectedGraph.succOf
  cases edgesLookup g.m_edges u <;> rfl

theorem getSuccessorsMut_fst (g : DirectedGraph) (u : Nat) :
    (g.getSuccessorsMut u).1 = g.succOf u := by
  unfold DirectedGraph.getSuccessorsMut
  simp only [edgesLookup_getOrInsert, if_pos rfl]
  rfl

/-! ### Per-operation structural lemmas -/

theorem addVertex_fst (g : DirectedGraph) (d : Int) :
    (g.addVertex d).1 = ⟨g.m_vertexCounter, d⟩ := rfl

theorem addVertex_snd (g : DirectedGraph) (d : Int) :
    (g.addVertex d).2 =
      ⟨g.m_vertexCounter + 1,
       g.m_vertices ++ [(⟨g.m_vertexCounter, d⟩, ⟨g.m_vertexCounter, d⟩)],
       g.m_edges⟩ := rfl

theorem getSuccessorsMut_snd (g : DirectedGraph) (u : Nat) :
    (g.getSuccessorsMut u).2 = { g with m_edges := edgesGetOrInsert g.m_edges u } := rfl

theorem removeVertex_counter (g : DirectedGraph) (u : Nat) :
    (g.removeVertex u).2.m_vertexCounter = g.m_vertexCounter := by
  unfold DirectedGraph.removeVertex
  split <;> rfl

theorem removeEdge_counter (g : DirectedGraph) (u v : Nat) :
    (g.removeEdge u v).2.m_vertexCounter = g.m_vertexCounter := by
  unfold DirectedGraph.removeEdge
  dsimp only
  split
  · split <;> rfl
  · rfl

theorem removeEdge_vertices (g : DirectedGraph) (u v : Nat) :
    (g.removeEdge u v).2.m_vertices = g.m_vertices := by
  unfold DirectedGraph.removeEdge
  dsimp only
  split
  · split <;> rfl
  · rfl

theorem addEdge_some_fields {g g2 : DirectedGraph} {u v : Nat} {b : Bool}
    (h : g.addEdge u v = some (b, g2)) :
    g2.m_vertexCounter = g.m_vertexCounter ∧ g2.m_vertices = g.m_vertices := by
  unfold DirectedGraph.addEdge at h
  dsimp only at h
  split at h
  · split at h <;> (injection h with h1; injection h1 with hb hg; rw [← hg]; exact ⟨rfl, rfl⟩)
  · exact absurd h (by simp)

/-! ### The observable successor sets after each operation -/

theorem getD_lookup_getOrInsert (es : List (Nat × List Nat)) (u w : Nat) :
    (edgesLookup (edgesGetOrInsert es u) w).getD [] = (edgesLookup es w).getD [] := by
  rw [edgesLookup_getOrInsert]
  by_cases hw : w = u
  · subst hw; simp
  · rw [if_neg hw]

theorem getD_lookup_set_getOrInsert (es : List (Nat × List Nat)) (u : Nat) (s : List Nat)
    (w : Nat) :
    (edgesLookup (edgesSet (edgesGetOrInsert es u) u s) w).getD []
      = if w = u then s else (edgesLookup es w).getD [] := by
  rw [edgesLookup_edgesSet]
  by_cases hw : w = u
  · subst hw
    rw [if_pos rfl, if_pos rfl, edgesLookup_getOrInsert, if_pos rfl]
    rfl
  · rw [if_neg hw, if_neg hw, edgesLookup_getOrInsert, if_neg hw]

theorem succOf_getSuccessorsMut (g : DirectedGraph) (u w : Nat) :
    (g.getSuccessorsMut u).2.succOf w = g.succOf w := by
  rw [getSuccessorsMut_snd]
  unfold DirectedGraph.succOf
  exact getD_lookup_getOrInsert g.m_edges u w

theorem graph_eta (g : DirectedGraph) : ({ g with m_edges := g.m_edges } : DirectedGraph) = g :=
  rfl

theorem edge_cond_eq (g : DirectedGraph) (u v : Nat) :
    ((edgesLookup (edgesGetOrInsert g.m_edges u) u).getD []).contains v = g.hasEdge u v := by
  unfold DirectedGraph.hasEdge
  rw [getD_lookup_getOrInsert]

theorem isSome_of_hasEdge {g : DirectedGraph} {u v : Nat} (h : g.hasEdge u v = true) :
    (edgesLookup g.m_edges u).isSome = true := by
  unfold DirectedGraph.hasEdge at h
  cases hl : edgesLookup g.m_edges u
  · rw [hl] at h
    simp at h
  · rfl

theorem edgesGetOrInsert_of_isSome {es : List (Nat × List Nat)} {u : Nat}
    (h : (edgesLookup es u).isSome = true) : edgesGetOrInsert es u = es := by
  unfold edgesGetOrInsert
  rw [if_pos h]

theorem addEdge_existing {g : DirectedGraph} {u v : Nat} (hu : g.containsVertex u = true)
    (hv : g.containsVertex v = true) (h1 : g.hasEdge u v = true) :
    g.addEdge u v = some (false, g) := by
  unfold DirectedGraph.addEdge
  dsimp only
  rw [if_pos (by rw [hu, hv]; rfl), edge_cond_eq, if_pos h1,
    edgesGetOrInsert_of_isSome (isSome_of_hasEdge h1), graph_eta]

/-- C4: with both endpoints owned by the graph, `addEdge(u, v)` on an
existing edge returns `false` and leaves the graph unchanged; on a missing
edge it returns `true` and adds exactly the edge `u -> v`, leaving the
vertices and the counter untouched, and an immediately repeated
`addEdge(u, v)` returns `false` and leaves the resulting graph identical. -/
theorem addEdge_duplicate_semantics (g : DirectedGraph) (u v : Nat)
    (hu : g.containsVertex u = true) (hv : g.containsVertex v = true) :
    (g.hasEdge u v = true → g.addEdge u v = some (false, g)) ∧
    (g.hasEdge u v = false →
      ∃ g2, g.addEdge u v = some (true, g2) ∧
        g2.m_vertices = g.m_vertices ∧
        g2.m_vertexCounter = g.m_vertexCounter ∧
        (∀ a b, g2.hasEdge a b = true ↔ (g.hasEdge a b = true ∨ (a = u ∧ b = v))) ∧
        g2.addEdge u v = some (false, g2)) := by
  constructor
  · intro h1
    exact addEdge_existing hu hv h1
  · intro h1
    refine ⟨DirectedGraph.mk g.m_vertexCounter g.m_vertices
      (edgesSet (edgesGetOrInsert g.m_edges u) u
        ((edgesLookup (edgesGetOrInsert g.m_edges u) u).getD [] ++ [v])), ?_, rfl, rfl, ?_, ?_⟩
    · unfold DirectedGraph.addEdge
      dsimp only
      rw [if_pos (by rw [hu, hv]; rfl), edge_cond_eq, if_neg (by rw [h1]; simp)]
    · intro a b
      have hsucc : ∀ w, (DirectedGraph.mk g.m_vertexCounter g.m_vertices
          (edgesSet (edgesGetOrInsert g.m_edges u) u
            ((edgesLookup (edgesGetOrInsert g.m_edges u) u).getD [] ++ [v]))).succOf w
          = if w = u then g.succOf u ++ [v] else g.succOf w := by
        intro w
        show (edgesLookup (edgesSet (edgesGetOrInsert g.m_edges u) u _) w).getD [] = _
        rw [getD_lookup_set_getOrInsert]
        rw [getD_lookup_getOrInsert]
        rfl
      rw [hasEdge_iff, hasEdge_iff, hsucc a]
      by_cases ha : a = u
      · subst ha
        rw [if_pos rfl, List.mem_append]
        simp
      · rw [if_neg ha]
        simp [ha]
    · have h2 : (DirectedGraph.mk g.m_vertexCounter g.m_vertices
          (edgesSet (edgesGetOrInsert g.m_edges u) u
            ((edgesLookup (edgesGetOrInsert g.m_edges u) u).getD [] ++ [v]))).hasEdge u v
          = true := by
        rw [hasEdge_iff]
        show v ∈ (edgesLookup (edgesSet (edgesGetOrInsert g.m_edges u) u _) u).getD []
        rw [getD_lookup_set_getOrInsert, if_pos rfl]
        exact List.mem_append.2 (Or.inr (List.mem_singleton.2 rfl))
      exact addEdge_existing hu hv h2

/-- Witness for C4 at the two-vertex empty-edge graph `c6g`. -/
theorem addEdge_duplicate_semantics_witness :
    (c6g.hasEdge 0 1 = true → c6g.addEdge 0 1 = some (false, c6g)) ∧
    (c6g.hasEdge 0 1 = false →
      ∃ g2, c6g.addEdge 0 1 = some (true, g2) ∧
        g2.m_vertices = c6g.m_vertices ∧
        g2.m_vertexCounter = c6g.m_vertexCounter ∧
        (∀ a b, g2.hasEdge a b = true ↔ (c6g.hasEdge a b = true ∨ (a = 0 ∧ b = 1))) ∧
        g2.addEdge 0 1 = some (false, g2)) :=
  addEdge_duplicate_semantics c6g 0 1 (by decide) (by decide)

/-- C1: starting from the empty graph, adding vertices with payloads
0,1,2,3 yields ids 0,1,2,3; after adding the edges 0->0, 0->1, 0->3, 2->3,
the repeated `addEdge(2, 3)` returns `false` and `toString()` returns the
exact literal of `test_DirectedGraph_setup`. -/
theorem end_to_end_setup :
    c1ids = [0, 1, 2, 3] ∧
    c1run.map (fun p => (p.1, p.2.toString)) = some (false, c1expected) := by
  exact ⟨rfl, rfl⟩

/-! ### Decomposition of `toString` into functions of the observable state -/

theorem sorted_map_getID (g : DirectedGraph) :
    (toSortedVertices g.getVerticesConst).map Vertex.getID = sortedIDs g := by
  unfold toSortedVertices sortedIDs toSortedIds
  rw [List.map_insertionSort vertexLE (fun a b => a ≤ b) Vertex.getID _
    (fun a _ b _ => Iff.rfl)]
  congr 1
  unfold DirectedGraph.getVerticesConst DirectedGraph.vertexIDs
  rw [List.map_map]
  rfl

theorem edgeLines_match_eq (es : List (Nat × List Nat)) (i : Nat) (f : Nat → Nat → String) :
    (match edgesLookup es i with
     | some s => String.join ((toSortedIds s).map (f i))
     | none => "")
     = String.join ((toSortedIds ((edgesLookup es i).getD [])).map (f i)) := by
  cases edgesLookup es i <;> rfl

theorem toString_render (g : DirectedGraph) :
    g.toString = "DirectedGraph:\n" ++ "  vertices:\n"
      ++ String.join ((sortedIDs g).map vertexLine)
      ++ "  edges:\n"
      ++ String.join ((sortedIDs g).map (edgeLinesD g)) := by
  unfold DirectedGraph.toString
  dsimp only
  have h1 : String.join ((toSortedVertices g.getVerticesConst).map
        (fun v => "    " ++ v.toString ++ "\n"))
      = String.join ((sortedIDs g).map vertexLine) := by
    rw [← sorted_map_getID g, List.map_map]
    rfl
  have h2 : String.join ((toSortedVertices g.getVerticesConst).map
        (fun u => match edgesLookup g.m_edges u.getID with
          | some uSuccessors =>
              String.join ((toSortedIds uSuccessors).map
                (fun v => "    " ++ u.toString ++ " -> " ++ renderId v ++ "\n"))
          | none => ""))
      = String.join ((sortedIDs g).map (edgeLinesD g)) := by
    rw [← sorted_map_getID g, List.map_map]
    have h3 : ∀ u : Vertex,
        (match edgesLookup g.m_edges u.getID with
         | some uSuccessors =>
             String.join ((toSortedIds uSuccessors).map
               (fun v => "    " ++ u.toString ++ " -> " ++ renderId v ++ "\n"))
         | none => "")
        = (edgeLinesD g ∘ Vertex.getID) u := by
      intro u
      show _ = edgeLinesD g u.getID
      unfold edgeLinesD DirectedGraph.succOf
      exact edgeLines_match_eq g.m_edges u.getID edgeLine
    exact congrArg String.join (List.map_congr_left (fun u _ => h3 u))
  rw [h1, h2]

theorem toString_congr_obs {g1 g2 : DirectedGraph}
    (hv : g1.vertexIDs = g2.vertexIDs)
    (hs : ∀ w, g1.succOf w = g2.succOf w) :
    g1.toString = g2.toString := by
  rw [toString_render, toString_render]
  have hids : sortedIDs g1 = sortedIDs g2 := by
    unfold sortedIDs
    rw [hv]
  rw [hids]
  have he : ∀ i, edgeLinesD g1 i = edgeLinesD g2 i := by
    intro i
    unfold edgeLinesD
    rw [hs i]
  congr 1
  exact congrArg String.join (List.map_congr_left (fun i _ => he i))

/-- C10: the only state a query can touch is the adjacency map entry the
non-const `getSuccessors` default-inserts; `getVertices` (both overloads),
the const `getSuccessors` and `toString` are translated as pure functions of
the state because their bodies perform no writes, and the non-const
`getSuccessors` leaves every observable — the owned vertex entries (ids and
payloads), the counter, both `getVertices` views, the edge relation, every
const `getSuccessors` result, and the `toString` rendering — unchanged. -/
theorem queries_preserve_observables (g : DirectedGraph) (u : Nat) :
    (g.getSuccessorsMut u).2.m_vertices = g.m_vertices ∧
    (g.getSuccessorsMut u).2.m_vertexCounter = g.m_vertexCounter ∧
    (g.getSuccessorsMut u).2.getVertices = g.getVertices ∧
    (g.getSuccessorsMut u).2.getVerticesConst = g.getVerticesConst ∧
    (∀ a b, (g.getSuccessorsMut u).2.hasEdge a b = g.hasEdge a b) ∧
    (∀ w, (g.getSuccessorsMut u).2.getSuccessorsConst w = g.getSuccessorsConst w) ∧
    (g.getSuccessorsMut u).2.toString = g.toString := by
  refine ⟨rfl, rfl, rfl, rfl, ?_, ?_, ?_⟩
  · intro a b
    show ((g.getSuccessorsMut u).2.succOf a).contains b = (g.succOf a).contains b
    rw [succOf_getSuccessorsMut]
  · intro w
    rw [getSuccessorsConst_eq_succOf, getSuccessorsConst_eq_succOf, succOf_getSuccessorsMut]
  · exact toString_congr_obs rfl (succOf_getSuccessorsMut g u)

/-- C6 counterexample: on the two-vertex graph with no edges (both vertices
present, edge 0->1 absent), `removeEdge(0, 1)` returns `false` as claimed
but the graph state does change: `m_edges[&u]` default-inserts an empty
adjacency entry for vertex 0, so the resulting state differs from the
original. -/
theorem removeEdge_mutates_counterexample :
    (c6g.removeEdge 0 1).1 = false ∧ (c6g.removeEdge 0 1).2 ≠ c6g := by
  decide

/-- C6 (amended): when either vertex is absent or the edge `u -> v` does not
exist, `removeEdge(u, v)` returns `false` and every observable is unchanged
— the owned vertex entries, the counter, the edge relation, every const
`getSuccessors` result, and the `toString` output — though when both
vertices are present the internal adjacency map may gain an empty entry for
`u`; when both vertices are present and the edge exists, `removeEdge(u, v)`
removes exactly that edge and returns `true`. -/
theorem removeEdge_spec (g : DirectedGraph) (u v : Nat) :
    ((g.containsVertex u = false ∨ g.containsVertex v = false ∨ g.hasEdge u v = false) →
      (g.removeEdge u v).1 = false ∧
      (g.removeEdge u v).2.m_vertices = g.m_vertices ∧
      (g.removeEdge u v).2.m_vertexCounter = g.m_vertexCounter ∧
      (∀ a b, (g.removeEdge u v).2.hasEdge a b = g.hasEdge a b) ∧
      (∀ w, (g.removeEdge u v).2.getSuccessorsConst w = g.getSuccessorsConst w) ∧
      (g.removeEdge u v).2.toString = g.toString) ∧
    (g.containsVertex u = true → g.containsVertex v = true → g.hasEdge u v = true →
      (g.removeEdge u v).1 = true ∧
      (g.removeEdge u v).2.m_vertices = g.m_vertices ∧
      (g.removeEdge u v).2.m_vertexCounter = g.m_vertexCounter ∧
      (∀ a b, ((g.removeEdge u v).2.hasEdge a b = true ↔
        (g.hasEdge a b = true ∧ ¬(a = u ∧ b = v))))) := by
  constructor
  · intro hd
    by_cases hc : (g.containsVertex u && g.containsVertex v) = true
    · have huv : g.hasEdge u v = false := by
        rcases hd with h | h | h
        · rw [Bool.and_eq_true] at hc
          rw [hc.1] at h
          exact absurd h (by simp)
        · rw [Bool.and_eq_true] at hc
          rw [hc.2] at h
          exact absurd h (by simp)
        · exact h
      have hres : g.removeEdge u v
          = (false, { g with m_edges := edgesGetOrInsert g.m_edges u }) := by
        unfold DirectedGraph.removeEdge
        dsimp only
        rw [if_pos hc, edge_cond_eq, if_neg (by rw [huv]; simp)]
      rw [hres]
      have hsucc : ∀ w,
          (DirectedGraph.mk g.m_vertexCounter g.m_vertices
            (edgesGetOrInsert g.m_edges u)).succOf w = g.succOf w := by
        intro w
        show (edgesLookup (edgesGetOrInsert g.m_edges u) w).getD [] = _
        exact getD_lookup_getOrInsert g.m_edges u w
      refine ⟨rfl, rfl, rfl, ?_, ?_, ?_⟩
      · intro a b
        show ((DirectedGraph.mk g.m_vertexCounter g.m_vertices
          (edgesGetOrInsert g.m_edges u)).succOf a).contains b = (g.succOf a).contains b
        rw [hsucc a]
      · intro w
        rw [getSuccessorsConst_eq_succOf, getSuccessorsConst_eq_succOf]
        exact hsucc w
      · exact toString_congr_obs rfl hsucc
    · have hres : g.removeEdge u v = (false, g) := by
        unfold DirectedGraph.removeEdge
        dsimp only
        rw [if_neg hc]
      rw [hres]
      exact ⟨rfl, rfl, rfl, fun a b => rfl, fun w => rfl, rfl⟩
  · intro hu hv huv
    have hres : g.removeEdge u v
        = (true, DirectedGraph.mk g.m_vertexCounter g.m_vertices
            (edgesSet (edgesGetOrInsert g.m_edges u) u
              (((edgesLookup (edgesGetOrInsert g.m_edges u) u).getD []).filter
                (fun w => !(w == v))))) := by
      unfold DirectedGraph.removeEdge
      dsimp only
      rw [if_pos (by rw [hu, hv]; rfl), edge_cond_eq, if_pos huv]
    rw [hres]
    refine ⟨rfl, rfl, rfl, ?_⟩
    intro a b
    have hsucc : ∀ w,
        (DirectedGraph.mk g.m_vertexCounter g.m_vertices
          (edgesSet (edgesGetOrInsert g.m_edges u) u
            (((edgesLookup (edgesGetOrInsert g.m_edges u) u).getD []).filter
              (fun w => !(w == v))))).succOf w
        = if w = u then (g.succOf u).filter (fun x => !(x == v)) else g.succOf w := by
      intro w
      show (edgesLookup (edgesSet (edgesGetOrInsert g.m_edges u) u _) w).getD [] = _
      rw [getD_lookup_set_getOrInsert, getD_lookup_getOrInsert]
      rfl
    rw [hasEdge_iff, hasEdge_iff, hsucc a]
    by_cases ha : a = u
    · subst ha
      rw [if_pos rfl, List.mem_filter]
      simp
    · rw [if_neg ha]
      simp [ha]

/-- Witness for C6 (amended) at the graph `c1graph4` with edge 2->3 absent
and edge handles 2, 3 present. -/
theorem removeEdge_spec_witness :
    ((c1graph4.containsVertex 2 = false ∨ c1graph4.containsVertex 3 = false ∨
        c1graph4.hasEdge 2 3 = false) →
      (c1graph4.removeEdge 2 3).1 = false ∧
      (c1graph4.removeEdge 2 3).2.m_vertices = c1graph4.m_vertices ∧
      (c1graph4.removeEdge 2 3).2.m_vertexCounter = c1graph4.m_vertexCounter ∧
      (∀ a b, (c1graph4.removeEdge 2 3).2.hasEdge a b = c1graph4.hasEdge a b) ∧
      (∀ w, (c1graph4.removeEdge 2 3).2.getSuccessorsConst w
        = c1graph4.getSuccessorsConst w) ∧
      (c1graph4.removeEdge 2 3).2.toString = c1graph4.toString) ∧
    (c1graph4.containsVertex 2 = true → c1graph4.containsVertex 3 = true →
      c1graph4.hasEdge 2 3 = true →
      (c1graph4.removeEdge 2 3).1 = true ∧
      (c1graph4.removeEdge 2 3).2.m_vertices = c1graph4.m_vertices ∧
      (c1graph4.removeEdge 2 3).2.m_vertexCounter = c1graph4.m_vertexCounter ∧
      (∀ a b, ((c1graph4.removeEdge 2 3).2.hasEdge a b = true ↔
        (c1graph4.hasEdge a b = true ∧ ¬(a = 2 ∧ b = 3))))) :=
  removeEdge_spec c1graph4 2 3

/-! ### C8: getSuccessors -/

theorem edgesLookup_some_mem {es : List (Nat × List Nat)} {w : Nat} {s : List Nat}
    (h : edgesLookup es w = some s) : ∃ p, p ∈ es ∧ p.1 = w ∧ p.2 = s := by
  unfold edgesLookup at h
  cases hf : List.find? (fun p => p.1 == w) es with
  | none => rw [hf] at h; exact absurd h (by simp)
  | some p =>
      rw [hf] at h
      refine ⟨p, List.mem_of_find?_eq_some hf, by simpa using List.find?_some hf, ?_⟩
      simpa using h

theorem mem_getD_lookup {es : List (Nat × List Nat)} {w x : Nat}
    (h : x ∈ (edgesLookup es w).getD []) : ∃ p, p ∈ es ∧ p.1 = w ∧ x ∈ p.2 := by
  cases hl : edgesLookup es w with
  | none => rw [hl] at h; exact absurd h (by simp)
  | some s =>
      rw [hl] at h
      rcases edgesLookup_some_mem hl with ⟨p, hp, hp1, hp2⟩
      exact ⟨p, hp, hp1, by rw [hp2]; simpa using h⟩

/-- C8: `getSuccessors(u)` returns exactly the vertices `u` has an outgoing
edge to (for both overloads, which return the same list), and when the
adjacency invariant holds and `u` is not currently owned — which covers a
vertex removed earlier by `removeVertex` — the result is the empty list,
not an error (both overloads are total functions). -/
theorem getSuccessors_spec (g : DirectedGraph) (u : Nat) :
    (∀ v, v ∈ g.getSuccessorsConst u ↔ g.hasEdge u v = true) ∧
    ((g.getSuccessorsMut u).1 = g.getSuccessorsConst u) ∧
    (g.Inv → g.containsVertex u = false → g.getSuccessorsConst u = []) := by
  refine ⟨?_, ?_, ?_⟩
  · intro v
    rw [getSuccessorsConst_eq_succOf, hasEdge_iff]
  · rw [getSuccessorsMut_fst, getSuccessorsConst_eq_succOf]
  · intro hinv hcv
    rw [getSuccessorsConst_eq_succOf]
    unfold DirectedGraph.succOf
    cases hl : edgesLookup g.m_edges u with
    | none => rfl
    | some s =>
        rcases edgesLookup_some_mem hl with ⟨p, hp, hp1, hp2⟩
        show s = []
        by_contra hsne
        have hcu := (hinv p hp).1 (by rw [hp2]; exact hsne)
        rw [hp1, hcv] at hcu
        exact absurd hcu (by simp)

/-- Witness for C8 at the empty graph and the unowned handle 5. -/
theorem getSuccessors_spec_witness :
    (∀ v, v ∈ DirectedGraph.empty.getSuccessorsConst 5 ↔
      DirectedGraph.empty.hasEdge 5 v = true) ∧
    ((DirectedGraph.empty.getSuccessorsMut 5).1 = DirectedGraph.empty.getSuccessorsConst 5) ∧
    DirectedGraph.empty.getSuccessorsConst 5 = [] :=
  ⟨(getSuccessors_spec DirectedGraph.empty 5).1,
   (getSuccessors_spec DirectedGraph.empty 5).2.1,
   (getSuccessors_spec DirectedGraph.empty 5).2.2
     (fun p hp => absurd hp (List.not_mem_nil p)) (by decide)⟩

/-! ### C7: the adjacency ownership invariant -/

theorem inv_empty : DirectedGraph.empty.Inv :=
  fun p hp => absurd hp (List.not_mem_nil p)

theorem containsVertex_addVertex (g : DirectedGraph) (d : Int) (w : Nat) :
    (g.addVertex d).2.containsVertex w
      = (g.containsVertex w || (g.m_vertexCounter == w)) := by
  show (g.m_vertices ++ [((⟨g.m_vertexCounter, d⟩ : Vertex), (⟨g.m_vertexCounter, d⟩ : Vertex))]).any
      (fun p => p.1.getID == w) = _
  rw [List.any_append]
  simp [DirectedGraph.containsVertex, Vertex.getID]

theorem inv_addVertex {g : DirectedGraph} (h : g.Inv) (d : Int) : (g.addVertex d).2.Inv := by
  intro p hp
  have hp2 : p ∈ g.m_edges := hp
  have hmono : ∀ x, g.containsVertex x = true → (g.addVertex d).2.containsVertex x = true := by
    intro x hx
    rw [containsVertex_addVertex, hx]
    rfl
  exact ⟨fun hne => hmono _ ((h p hp2).1 hne), fun x hx => hmono _ ((h p hp2).2 x hx)⟩

theorem inv_getOrInsert {g : DirectedGraph} (h : g.Inv) (u : Nat) :
    (DirectedGraph.mk g.m_vertexCounter g.m_vertices (edgesGetOrInsert g.m_edges u)).Inv := by
  intro p hp
  rcases mem_edgesGetOrInsert hp with hmem | heq
  · exact h p hmem
  · rw [heq]
    exact ⟨fun hne => absurd rfl hne, fun x hx => absurd hx (List.not_mem_nil x)⟩

theorem inv_getSuccessorsMut {g : DirectedGraph} (h : g.Inv) (u : Nat) :
    (g.getSuccessorsMut u).2.Inv :=
  inv_getOrInsert h u

theorem succ_mem_contains {g : DirectedGraph} (h : g.Inv) {u x : Nat}
    (hx : x ∈ (edgesLookup (edgesGetOrInsert g.m_edges u) u).getD []) :
    g.containsVertex x = true := by
  rcases mem_getD_lookup hx with ⟨q, hq, hq1, hqx⟩
  rcases mem_edgesGetOrInsert hq with hq2 | hq2
  · exact (h q hq2).2 x hqx
  · rw [hq2] at hqx
    exact absurd hqx (List.not_mem_nil x)

theorem inv_edgesSet_getOrInsert {g : DirectedGraph} (h : g.Inv) (u : Nat)
    (hu : g.containsVertex u = true) (s : List Nat)
    (hs : ∀ x ∈ s, g.containsVertex x = true) :
    (DirectedGraph.mk g.m_vertexCounter g.m_vertices
      (edgesSet (edgesGetOrInsert g.m_edges u) u s)).Inv := by
  intro p hp
  rcases mem_edgesSet hp with heq | hmem
  · rw [heq]
    exact ⟨fun _ => hu, hs⟩
  · rcases mem_edgesGetOrInsert hmem with hm | hm
    · exact h p hm
    · rw [hm]
      exact ⟨fun hne => absurd rfl hne, fun x hx => absurd hx (List.not_mem_nil x)⟩

theorem addEdge_cases {g g2 : DirectedGraph} {u v : Nat} {b : Bool}
    (h : g.addEdge u v = some (b, g2)) :
    g.containsVertex u = true ∧ g.containsVertex v = true ∧
    ((b = false ∧ g2 = DirectedGraph.mk g.m_vertexCounter g.m_vertices
        (edgesGetOrInsert g.m_edges u)) ∨
     (b = true ∧ g2 = DirectedGraph.mk g.m_vertexCounter g.m_vertices
        (edgesSet (edgesGetOrInsert g.m_edges u) u
          ((edgesLookup (edgesGetOrInsert g.m_edges u) u).getD [] ++ [v])) ∧
      v ∉ (edgesLookup (edgesGetOrInsert g.m_edges u) u).getD [])) := by
  unfold DirectedGraph.addEdge at h
  dsimp only at h
  by_cases hc : (g.containsVertex u && g.containsVertex v) = true
  · rw [if_pos hc] at h
    rw [Bool.and_eq_true] at hc
    refine ⟨hc.1, hc.2, ?_⟩
    split at h
    next hin =>
      injection h with h1
      injection h1 with hb hg
      exact Or.inl ⟨hb.symm, hg.symm⟩
    next hin =>
      injection h with h1
      injection h1 with hb hg
      refine Or.inr ⟨hb.symm, hg.symm, ?_⟩
      intro hmem
      exact hin (by simpa using hmem)
  · rw [if_neg hc] at h
    exact absurd h (by simp)

theorem inv_addEdge {g g2 : DirectedGraph} {u v : Nat} {b : Bool}
    (h : g.Inv) (he : g.addEdge u v = some (b, g2)) : g2.Inv := by
  rcases addEdge_cases he with ⟨hu, hv, hcase | hcase⟩
  · rw [hcase.2]
    exact inv_getOrInsert h u
  · rw [hcase.2.1]
    apply inv_edgesSet_getOrInsert h u hu
    intro x hx
    rcases List.mem_append.1 hx with hx1 | hx2
    · exact succ_mem_contains h hx1
    · rw [List.mem_singleton.1 hx2]
      exact hv

theorem inv_removeEdge {g : DirectedGraph} (h : g.Inv) (u v : Nat) :
    (g.removeEdge u v).2.Inv := by
  unfold DirectedGraph.removeEdge
  dsimp only
  split
  case isTrue hc =>
    rw [Bool.and_eq_true] at hc
    split
    case isTrue hin =>
      exact inv_edgesSet_getOrInsert h u hc.1 _
        (fun x hx => succ_mem_contains h (List.mem_of_mem_filter hx))
    case isFalse hin =>
      exact inv_getOrInsert h u
  case isFalse hc =>
    exact h

theorem containsVertex_filter (g : DirectedGraph) (u w : Nat) :
    ((g.m_vertices.filter (fun p => !(p.1.getID == u))).any (fun p => p.1.getID == w)) = true
      ↔ (g.containsVertex w = true ∧ w ≠ u) := by
  unfold DirectedGraph.containsVertex
  simp only [List.any_eq_true, List.mem_filter, Bool.not_eq_true', beq_eq_false_iff_ne,
    beq_iff_eq]
  constructor
  · rintro ⟨p, ⟨hl, hne⟩, hw⟩
    exact ⟨⟨p, hl, hw⟩, by rw [← hw]; exact hne⟩
  · rintro ⟨⟨p, hl, hw⟩, hne⟩
    exact ⟨p, ⟨hl, by rw [hw]; exact hne⟩, hw⟩

theorem inv_removeVertex {g : DirectedGraph} (h : g.Inv) (u : Nat) :
    (g.removeVertex u).2.Inv := by
  unfold DirectedGraph.removeVertex
  split
  case isTrue hc =>
    intro p hp
    rcases List.mem_map.1 hp with ⟨q, hq, hqe⟩
    have hqm : q ∈ g.m_edges := List.mem_of_mem_filter hq
    have hq1 : ¬(q.1 = u) := by simpa using List.of_mem_filter hq
    constructor
    · intro hne
      have hq2ne : q.2 ≠ [] := by
        intro hq2
        rw [← hqe] at hne
        apply hne
        show q.2.filter (fun w => !(w == u)) = []
        rw [hq2]
        rfl
      have hold := (h q hqm).1 hq2ne
      have hkey : p.1 = q.1 := by rw [← hqe]
      rw [hkey]
      exact (containsVertex_filter g u q.1).2 ⟨hold, hq1⟩
    · intro x hx
      have hx2 : x ∈ q.2.filter (fun w => !(w == u)) := by
        rw [← hqe] at hx
        exact hx
      have hxq : x ∈ q.2 := List.mem_of_mem_filter hx2
      have hxu : x ≠ u := by simpa using List.of_mem_filter hx2
      have hold := (h q hqm).2 x hxq
      exact (containsVertex_filter g u x).2 ⟨hold, hxu⟩
  case isFalse =>
    exact h

/-- C7: the adjacency invariant — every `m_edges` key with a nonempty
successor set and every member of every successor set refers to a currently
owned vertex, entries with empty successor sets exempt — holds of the empty
graph and is preserved by every public mutating operation; `getVertices`,
the const `getSuccessors` and `toString` are pure in the model (their C++
bodies perform no writes), so they preserve it trivially. -/
theorem inv_preserved (g : DirectedGraph) (hg : g.Inv) :
    DirectedGraph.empty.Inv ∧
    (∀ d, (g.addVertex d).2.Inv) ∧
    (∀ u v b g2, g.addEdge u v = some (b, g2) → g2.Inv) ∧
    (∀ u, (g.removeVertex u).2.Inv) ∧
    (∀ u v, (g.removeEdge u v).2.Inv) ∧
    (∀ u, (g.getSuccessorsMut u).2.Inv) :=
  ⟨inv_empty, fun d => inv_addVertex hg d, fun _ _ _ _ he => inv_addEdge hg he,
   fun u => inv_removeVertex hg u, fun u v => inv_removeEdge hg u v,
   fun u => inv_getSuccessorsMut hg u⟩

/-- Witness for C7 at the empty graph. -/
theorem inv_preserved_witness :
    DirectedGraph.empty.Inv ∧
    (∀ d, (DirectedGraph.empty.addVertex d).2.Inv) ∧
    (∀ u v b g2, DirectedGraph.empty.addEdge u v = some (b, g2) → g2.Inv) ∧
    (∀ u, (DirectedGraph.empty.removeVertex u).2.Inv) ∧
    (∀ u v, (DirectedGraph.empty.removeEdge u v).2.Inv) ∧
    (∀ u, (DirectedGraph.empty.getSuccessorsMut u).2.Inv) :=
  inv_preserved DirectedGraph.empty (fun p hp => absurd hp (List.not_mem_nil p))

/-! ### Well-formedness of reachable states -/

theorem good_empty : DirectedGraph.empty.Good :=
  ⟨fun p hp => absurd hp (List.not_mem_nil p),
   fun i hi => absurd hi (List.not_mem_nil i),
   List.nodup_nil,
   fun p hp => absurd hp (List.not_mem_nil p),
   inv_empty⟩

theorem vertexIDs_addVertex (g : DirectedGraph) (d : Int) :
    (g.addVertex d).2.vertexIDs = g.vertexIDs ++ [g.m_vertexCounter] := by
  show (g.m_vertices ++ [_]).map _ = _
  rw [List.map_append]
  rfl

theorem good_addVertex {g : DirectedGraph} (h : g.Good) (d : Int) :
    (g.addVertex d).2.Good := by
  refine ⟨?_, ?_, ?_, h.succNodup, inv_addVertex h.inv d⟩
  · intro p hp
    have hp2 : p ∈ g.m_vertices
        ++ [((⟨g.m_vertexCounter, d⟩ : Vertex), (⟨g.m_vertexCounter, d⟩ : Vertex))] := hp
    rcases List.mem_append.1 hp2 with hm | hm
    · exact h.keysOwn p hm
    · rw [List.mem_singleton.1 hm]
  · intro i hi
    rw [vertexIDs_addVertex] at hi
    rcases List.mem_append.1 hi with hm | hm
    · exact Nat.lt_succ_of_lt (h.counterBound i hm)
    · rw [List.mem_singleton.1 hm]
      exact Nat.lt_succ_self _
  · rw [vertexIDs_addVertex]
    refine h.idsNodup.append (List.nodup_singleton _) ?_
    intro x hx hx2
    rw [List.mem_singleton.1 hx2] at hx
    exact absurd (h.counterBound _ hx) (Nat.lt_irrefl _)

theorem good_edges_change {g : DirectedGraph} (h : g.Good) (es : List (Nat × List Nat))
    (hn : ∀ p ∈ es, p.2.Nodup)
    (hi : (DirectedGraph.mk g.m_vertexCounter g.m_vertices es).Inv) :
    (DirectedGraph.mk g.m_vertexCounter g.m_vertices es).Good :=
  ⟨h.keysOwn, h.counterBound, h.idsNodup, hn, hi⟩

theorem succNodup_getOrInsert {es : List (Nat × List Nat)}
    (h : ∀ p ∈ es, p.2.Nodup) (u : Nat) :
    ∀ p ∈ edgesGetOrInsert es u, p.2.Nodup := by
  intro p hp
  rcases mem_edgesGetOrInsert hp with hm | hm
  · exact h p hm
  · rw [hm]
    exact List.nodup_nil

theorem getD_lookup_nodup {es : List (Nat × List Nat)}
    (h : ∀ p ∈ es, p.2.Nodup) (u : Nat) :
    ((edgesLookup es u).getD []).Nodup := by
  cases hl : edgesLookup es u with
  | none => exact List.nodup_nil
  | some s =>
      rcases edgesLookup_some_mem hl with ⟨p, hp, _, hp2⟩
      show s.Nodup
      rw [← hp2]
      exact h p hp

theorem succNodup_set {es : List (Nat × List Nat)} {u : Nat} {s : List Nat}
    (hes : ∀ p ∈ es, p.2.Nodup) (hs : s.Nodup) :
    ∀ p ∈ edgesSet es u s, p.2.Nodup := by
  intro p hp
  rcases mem_edgesSet hp with heq | hm
  · rw [heq]
    exact hs
  · exact hes p hm

theorem good_getSuccessorsMut {g : DirectedGraph} (h : g.Good) (u : Nat) :
    (g.getSuccessorsMut u).2.Good :=
  good_edges_change h _ (succNodup_getOrInsert h.succNodup u) (inv_getOrInsert h.inv u)

theorem good_addEdge {g g2 : DirectedGraph} {u v : Nat} {b : Bool}
    (h : g.Good) (he : g.addEdge u v = some (b, g2)) : g2.Good := by
  rcases addEdge_cases he with ⟨hu, hv, hcase | hcase⟩
  · rw [hcase.2]
    exact good_edges_change h _ (succNodup_getOrInsert h.succNodup u) (inv_getOrInsert h.inv u)
  · rw [hcase.2.1]
    refine good_edges_change h _ ?_ ?_
    · apply succNodup_set (succNodup_getOrInsert h.succNodup u)
      refine List.Nodup.append ?_ (List.nodup_singleton v) ?_
      · exact getD_lookup_nodup (succNodup_getOrInsert h.succNodup u) u
      · intro x hx hx2
        rw [List.mem_singleton.1 hx2] at hx
        exact hcase.2.2 hx
    · apply inv_edgesSet_getOrInsert h.inv u hu
      intro x hx
      rcases List.mem_append.1 hx with hx1 | hx2
      · exact succ_mem_contains h.inv hx1
      · rw [List.mem_singleton.1 hx2]
        exact hv

theorem good_removeEdge {g : DirectedGraph} (h : g.Good) (u v : Nat) :
    (g.removeEdge u v).2.Good := by
  unfold DirectedGraph.removeEdge
  dsimp only
  split
  next hc =>
    rw [Bool.and_eq_true] at hc
    split
    next hin =>
      refine good_edges_change h _ ?_ ?_
      · exact succNodup_set (succNodup_getOrInsert h.succNodup u)
          ((getD_lookup_nodup (succNodup_getOrInsert h.succNodup u) u).filter _)
      · exact inv_edgesSet_getOrInsert h.inv u hc.1 _
          (fun x hx => succ_mem_contains h.inv (List.mem_of_mem_filter hx))
    next hin =>
      exact good_edges_change h _ (succNodup_getOrInsert h.succNodup u)
        (inv_getOrInsert h.inv u)
  next hc =>
    exact h

theorem removeVertex_pos {g : DirectedGraph} {u : Nat} (h : g.containsVertex u = true) :
    g.removeVertex u = (true, DirectedGraph.mk g.m_vertexCounter
      (g.m_vertices.filter (fun p => !(p.1.getID == u)))
      ((g.m_edges.filter (fun p => !(p.1 == u))).map
        (fun p => (p.1, p.2.filter (fun w => !(w == u)))))) := by
  unfold DirectedGraph.removeVertex
  rw [if_pos h]

theorem removeVertex_neg {g : DirectedGraph} {u : Nat} (h : g.containsVertex u = false) :
    g.removeVertex u = (false, g) := by
  unfold DirectedGraph.removeVertex
  rw [if_neg (by rw [h]; simp)]

theorem good_removeVertex {g : DirectedGraph} (h : g.Good) (u : Nat) :
    (g.removeVertex u).2.Good := by
  by_cases hc : g.containsVertex u = true
  · have hi := inv_removeVertex h.inv u
    rw [removeVertex_pos hc] at hi ⊢
    refine ⟨?_, ?_, ?_, ?_, hi⟩
    · intro p hp
      exact h.keysOwn p (List.mem_of_mem_filter hp)
    · intro i hi2
      rcases List.mem_map.1 hi2 with ⟨p, hp, he⟩
      exact h.counterBound i
        (List.mem_map.2 ⟨p, List.mem_of_mem_filter hp, he⟩)
    · exact h.idsNodup.sublist ((List.filter_sublist g.m_vertices).map _)
    · intro p hp
      rcases List.mem_map.1 hp with ⟨q, hq, hqe⟩
      rw [← hqe]
      exact (h.succNodup q (List.mem_of_mem_filter hq)).filter _
  · rw [removeVertex_neg (by simpa using hc)]
    exact h

theorem reachable_good {g : DirectedGraph} (h : g.Reachable) : g.Good := by
  induction h with
  | empty => exact good_empty
  | addVertex d _ ih => exact good_addVertex ih d
  | addEdge _ he ih => exact good_addEdge ih he
  | removeVertex u _ ih => exact good_removeVertex ih u
  | removeEdge u v _ ih => exact good_removeEdge ih u v
  | getSuccessorsMut u _ ih => exact good_getSuccessorsMut ih u

/-! ### C3: removeVertex -/

theorem c1graph4_reachable : c1graph4.Reachable :=
  DirectedGraph.Reachable.addVertex 3 (DirectedGraph.Reachable.addVertex 2
    (DirectedGraph.Reachable.addVertex 1 (DirectedGraph.Reachable.addVertex 0
      DirectedGraph.Reachable.empty)))

/-- C3: for an owned vertex `u`, `removeVertex(u)` returns `true` and
afterwards `u` is absent from both `getVertices` overloads, `u` has no
adjacency entry of its own, and no successor set of any remaining vertex
contains `u`; for an unowned `u` it returns `false` and the state is
unchanged. -/
theorem removeVertex_semantics (g : DirectedGraph) (u : Nat) (hg : g.Reachable) :
    (g.containsVertex u = true →
      (g.removeVertex u).1 = true ∧
      (g.removeVertex u).2.containsVertex u = false ∧
      (∀ w ∈ (g.removeVertex u).2.getVertices, w.getID ≠ u) ∧
      (∀ w ∈ (g.removeVertex u).2.getVerticesConst, w.getID ≠ u) ∧
      (∀ p ∈ (g.removeVertex u).2.m_edges, p.1 ≠ u ∧ u ∉ p.2)) ∧
    (g.containsVertex u = false →
      (g.removeVertex u).1 = false ∧ (g.removeVertex u).2 = g) := by
  constructor
  · intro hc
    rw [removeVertex_pos hc]
    refine ⟨rfl, ?_, ?_, ?_, ?_⟩
    · refine Bool.eq_false_iff.2 (fun hx => ?_)
      exact absurd rfl ((containsVertex_filter g u u).1 hx).2
    · intro w hw
      rcases List.mem_map.1 hw with ⟨p, hp, he⟩
      have hkey := (reachable_good hg).keysOwn p (List.mem_of_mem_filter hp)
      have hfl : ¬(p.1.getID = u) := by simpa using List.of_mem_filter hp
      rw [← he, ← hkey]
      exact hfl
    · intro w hw
      rcases List.mem_map.1 hw with ⟨p, hp, he⟩
      have hfl : ¬(p.1.getID = u) := by simpa using List.of_mem_filter hp
      rw [← he]
      exact hfl
    · intro p hp
      rcases List.mem_map.1 hp with ⟨q, hq, hqe⟩
      have hq1 : ¬(q.1 = u) := by simpa using List.of_mem_filter hq
      constructor
      · rw [← hqe]
        exact hq1
      · intro hmem
        rw [← hqe] at hmem
        have : ¬(u = u) := by simpa using List.of_mem_filter hmem
        exact this rfl
  · intro hc
    rw [removeVertex_neg hc]
    exact ⟨rfl, rfl⟩

/-- Witness for C3 at the four-vertex graph `c1graph4` and the owned
handle 2. -/
theorem removeVertex_semantics_witness :
    (c1graph4.containsVertex 2 = true →
      (c1graph4.removeVertex 2).1 = true ∧
      (c1graph4.removeVertex 2).2.containsVertex 2 = false ∧
      (∀ w ∈ (c1graph4.removeVertex 2).2.getVertices, w.getID ≠ 2) ∧
      (∀ w ∈ (c1graph4.removeVertex 2).2.getVerticesConst, w.getID ≠ 2) ∧
      (∀ p ∈ (c1graph4.removeVertex 2).2.m_edges, p.1 ≠ 2 ∧ 2 ∉ p.2)) ∧
    (c1graph4.containsVertex 2 = false →
      (c1graph4.removeVertex 2).1 = false ∧ (c1graph4.removeVertex 2).2 = c1graph4) :=
  removeVertex_semantics c1graph4 2 c1graph4_reachable

/-! ### C9: const and non-const overloads -/

/-- C9: on every API-reachable graph state the non-const and the const
`getVertices` overloads return the same vertex sequence (the map keys and
the owned values coincide on reachable states), and the two `getSuccessors`
overloads return the same successor list for every handle; the C++
difference between the overloads is only the const qualification of the
returned pointers, which controls payload mutability and has no observable
counterpart in the returned set of handles. -/
theorem overloads_agree (g : DirectedGraph) (hg : g.Reachable) :
    g.getVertices = g.getVerticesConst ∧
    (∀ u, (g.getSuccessorsMut u).1 = g.getSuccessorsConst u) := by
  constructor
  · unfold DirectedGraph.getVertices DirectedGraph.getVerticesConst
    exact List.map_congr_left
      (fun p hp => ((reachable_good hg).keysOwn p hp).symm)
  · intro u
    rw [getSuccessorsMut_fst, getSuccessorsConst_eq_succOf]

/-- Witness for C9 at the two-vertex graph `c6g`. -/
theorem overloads_agree_witness :
    c6g.getVertices = c6g.getVerticesConst ∧
    (∀ u, (c6g.getSuccessorsMut u).1 = c6g.getSuccessorsConst u) :=
  overloads_agree c6g (DirectedGraph.Reachable.addVertex 1
    (DirectedGraph.Reachable.addVertex 0 DirectedGraph.Reachable.empty))

/-! ### C5: id uniqueness across operation sequences -/

theorem runOps_ids (ops : List GraphOp) :
    ∀ g g2 ids, runOps g ops = some (g2, ids) →
      ids = List.range' g.m_vertexCounter (countAddV ops) ∧
      g2.m_vertexCounter = g.m_vertexCounter + countAddV ops := by
  induction ops with
  | nil =>
      intro g g2 ids h
      simp only [runOps] at h
      injection h with h1
      injection h1 with ha hb
      subst ha
      rw [← hb]
      exact ⟨rfl, rfl⟩
  | cons op ops ih =>
      intro g g2 ids h
      cases op with
      | addV d =>
          simp only [runOps] at h
          cases hr : runOps (g.addVertex d).2 ops with
          | none =>
              rw [hr] at h
              exact absurd h (by simp)
          | some q =>
              rw [hr, Option.map_some'] at h
              injection h with h1
              injection h1 with ha hb
              obtain ⟨ih1, ih2⟩ := ih _ _ _ hr
              have hcnt : (g.addVertex d).2.m_vertexCounter = g.m_vertexCounter + 1 := rfl
              rw [hcnt] at ih1 ih2
              constructor
              · rw [← hb, ih1]
                show _ = List.range' g.m_vertexCounter (countAddV ops + 1)
                rw [List.range'_succ]
                rfl
              · rw [← ha, ih2]
                show _ = g.m_vertexCounter + (countAddV ops + 1)
                omega
      | addE u v =>
          simp only [runOps] at h
          cases ha : g.addEdge u v with
          | none =>
              rw [ha] at h
              exact absurd h (by simp)
          | some r =>
              rw [ha] at h
              simp only [Option.some_bind] at h
              obtain ⟨ih1, ih2⟩ := ih _ _ _ h
              have hcnt : r.2.m_vertexCounter = g.m_vertexCounter :=
                (addEdge_some_fields (show g.addEdge u v = some (r.1, r.2) by rw [ha])).1
              rw [hcnt] at ih1 ih2
              exact ⟨ih1, ih2⟩
      | remV u =>
          simp only [runOps] at h
          obtain ⟨ih1, ih2⟩ := ih _ _ _ h
          rw [removeVertex_counter] at ih1 ih2
          exact ⟨ih1, ih2⟩
      | remE u v =>
          simp only [runOps] at h
          obtain ⟨ih1, ih2⟩ := ih _ _ _ h
          rw [removeEdge_counter] at ih1 ih2
          exact ⟨ih1, ih2⟩
      | getSucc u =>
          simp only [runOps] at h
          obtain ⟨ih1, ih2⟩ := ih _ _ _ h
          exact ⟨ih1, ih2⟩

/-- C5: running any sequence of operations from the default-constructed
graph (vertex insertions freely interleaved with vertex removals and edge
operations), the ids carried by the handles the `addVertex` calls return
are exactly `0, 1, 2, ...` in order: pairwise distinct, strictly
increasing, starting at 0, and an id is never handed out twice even after
the vertex carrying it was removed. -/
theorem addVertex_ids_unique (ops : List GraphOp) (g : DirectedGraph) (ids : List Nat)
    (h : runOps DirectedGraph.empty ops = some (g, ids)) :
    ids = List.range (countAddV ops) ∧ ids.Nodup ∧ ids.Pairwise (· < ·) := by
  obtain ⟨h1, _⟩ := runOps_ids ops DirectedGraph.empty g ids h
  have h0 : ids = List.range (countAddV ops) := by
    rw [List.range_eq_range']
    exact h1
  refine ⟨h0, ?_, ?_⟩
  · rw [h0]
    exact List.nodup_range _
  · rw [h0]
    exact List.pairwise_lt_range _

/-- Witness for C5 at a concrete five-operation trace that interleaves two
vertex insertions with a removal, a successor query and an edge removal. -/
theorem addVertex_ids_unique_witness :
    ([0, 1] : List Nat) = List.range (countAddV [GraphOp.addV 5, GraphOp.remV 0,
      GraphOp.addV 7, GraphOp.getSucc 0, GraphOp.remE 1 1]) ∧
    ([0, 1] : List Nat).Nodup ∧ ([0, 1] : List Nat).Pairwise (· < ·) :=
  addVertex_ids_unique
    [GraphOp.addV 5, GraphOp.remV 0, GraphOp.addV 7, GraphOp.getSucc 0, GraphOp.remE 1 1]
    (DirectedGraph.mk 2 [((⟨1, 7⟩ : Vertex), (⟨1, 7⟩ : Vertex))] [(0, []), (1, [])])
    [0, 1] (by decide)

/-! ### C2: deterministic rendering -/

theorem toSortedIds_eq_of_perm {l1 l2 : List Nat} (h : l1.Perm l2) :
    toSortedIds l1 = toSortedIds l2 := by
  unfold toSortedIds
  exact List.eq_of_perm_of_sorted
    ((List.perm_insertionSort _ l1).trans (h.trans (List.perm_insertionSort _ l2).symm))
    (List.sorted_insertionSort _ l1) (List.sorted_insertionSort _ l2)

theorem succOf_nodup {g : DirectedGraph} (h : g.Good) (u : Nat) : (g.succOf u).Nodup :=
  getD_lookup_nodup h.succNodup u

/-- C2: `toString` is determined by the set of owned vertex ids and the set
of directed edges alone: it renders the header, the owned vertices sorted
by id ascending, then for each vertex in that order its successors sorted
ascending, one edge line each, edge-less vertices contributing no lines
(that structure is the definition `DirectedGraph.toString` itself, decomposed
by `toString_render`); consequently any two reachable graphs with the same
vertex-id set and the same edge set — however their vertices and edges were
interleaved and ordered at insertion — render identically. -/
theorem toString_deterministic (g1 g2 : DirectedGraph)
    (h1 : g1.Reachable) (h2 : g2.Reachable)
    (hv : ∀ i, i ∈ g1.vertexIDs ↔ i ∈ g2.vertexIDs)
    (he : ∀ u v, g1.hasEdge u v = true ↔ g2.hasEdge u v = true) :
    g1.toString = g2.toString := by
  have hg1 := reachable_good h1
  have hg2 := reachable_good h2
  rw [toString_render, toString_render]
  have hperm : g1.vertexIDs.Perm g2.vertexIDs :=
    (List.perm_ext_iff_of_nodup hg1.idsNodup hg2.idsNodup).2 hv
  have hsort : sortedIDs g1 = sortedIDs g2 := by
    unfold sortedIDs
    exact toSortedIds_eq_of_perm hperm
  rw [hsort]
  have hlines : ∀ i, edgeLinesD g1 i = edgeLinesD g2 i := by
    intro i
    unfold edgeLinesD
    have hsp : (g1.succOf i).Perm (g2.succOf i) := by
      refine (List.perm_ext_iff_of_nodup (succOf_nodup hg1 i) (succOf_nodup hg2 i)).2 ?_
      intro v
      rw [← hasEdge_iff, ← hasEdge_iff]
      exact he i v
    rw [toSortedIds_eq_of_perm hsp]
  congr 1
  exact congrArg String.join (List.map_congr_left fun i _ => hlines i)

theorem c2g1_reachable : c2g1.Reachable := by
  have h0 : (DirectedGraph.mk 3
      [((⟨0, 0⟩ : Vertex), (⟨0, 0⟩ : Vertex)), ((⟨1, 1⟩ : Vertex), (⟨1, 1⟩ : Vertex)),
       ((⟨2, 2⟩ : Vertex), (⟨2, 2⟩ : Vertex))] []).Reachable :=
    DirectedGraph.Reachable.addVertex 2 (DirectedGraph.Reachable.addVertex 1
      (DirectedGraph.Reachable.addVertex 0 DirectedGraph.Reachable.empty))
  have h1 : (DirectedGraph.mk 3
      [((⟨0, 0⟩ : Vertex), (⟨0, 0⟩ : Vertex)), ((⟨1, 1⟩ : Vertex), (⟨1, 1⟩ : Vertex)),
       ((⟨2, 2⟩ : Vertex), (⟨2, 2⟩ : Vertex))] [(0, [1])]).Reachable :=
    DirectedGraph.Reachable.addEdge h0
      (by decide :
        (DirectedGraph.mk 3
          [((⟨0, 0⟩ : Vertex), (⟨0, 0⟩ : Vertex)), ((⟨1, 1⟩ : Vertex), (⟨1, 1⟩ : Vertex)),
           ((⟨2, 2⟩ : Vertex), (⟨2, 2⟩ : Vertex))] []).addEdge 0 1
        = some (true, DirectedGraph.mk 3
          [((⟨0, 0⟩ : Vertex), (⟨0, 0⟩ : Vertex)), ((⟨1, 1⟩ : Vertex), (⟨1, 1⟩ : Vertex)),
           ((⟨2, 2⟩ : Vertex), (⟨2, 2⟩ : Vertex))] [(0, [1])]))
  exact DirectedGraph.Reachable.addEdge h1
    (by decide :
      (DirectedGraph.mk 3
        [((⟨0, 0⟩ : Vertex), (⟨0, 0⟩ : Vertex)), ((⟨1, 1⟩ : Vertex), (⟨1, 1⟩ : Vertex)),
         ((⟨2, 2⟩ : Vertex), (⟨2, 2⟩ : Vertex))] [(0, [1])]).addEdge 0 2
      = some (true, c2g1))

theorem c2g2_reachable : c2g2.Reachable := by
  have h0 : (DirectedGraph.mk 3
      [((⟨0, 9⟩ : Vertex), (⟨0, 9⟩ : Vertex)), ((⟨1, 8⟩ : Vertex), (⟨1, 8⟩ : Vertex)),
       ((⟨2, 7⟩ : Vertex), (⟨2, 7⟩ : Vertex))] []).Reachable :=
    DirectedGraph.Reachable.addVertex 7 (DirectedGraph.Reachable.addVertex 8
      (DirectedGraph.Reachable.addVertex 9 DirectedGraph.Reachable.empty))
  have h1 : (DirectedGraph.mk 3
      [((⟨0, 9⟩ : Vertex), (⟨0, 9⟩ : Vertex)), ((⟨1, 8⟩ : Vertex), (⟨1, 8⟩ : Vertex)),
       ((⟨2, 7⟩ : Vertex), (⟨2, 7⟩ : Vertex))] [(0, [2])]).Reachable :=
    DirectedGraph.Reachable.addEdge h0
      (by decide :
        (DirectedGraph.mk 3
          [((⟨0, 9⟩ : Vertex), (⟨0, 9⟩ : Vertex)), ((⟨1, 8⟩ : Vertex), (⟨1, 8⟩ : Vertex)),
           ((⟨2, 7⟩ : Vertex), (⟨2, 7⟩ : Vertex))] []).addEdge 0 2
        = some (true, DirectedGraph.mk 3
          [((⟨0, 9⟩ : Vertex), (⟨0, 9⟩ : Vertex)), ((⟨1, 8⟩ : Vertex), (⟨1, 8⟩ : Vertex)),
           ((⟨2, 7⟩ : Vertex), (⟨2, 7⟩ : Vertex))] [(0, [2])]))
  exact DirectedGraph.Reachable.addEdge h1
    (by decide :
      (DirectedGraph.mk 3
        [((⟨0, 9⟩ : Vertex), (⟨0, 9⟩ : Vertex)), ((⟨1, 8⟩ : Vertex), (⟨1, 8⟩ : Vertex)),
         ((⟨2, 7⟩ : Vertex), (⟨2, 7⟩ : Vertex))] [(0, [2])]).addEdge 0 1
      = some (true, c2g2))

theorem c2_edges_agree : ∀ u v, c2g1.hasEdge u v = true ↔ c2g2.hasEdge u v = true := by
  intro u v
  unfold c2g1 c2g2 DirectedGraph.hasEdge edgesLookup
  by_cases hu : (0 : Nat) = u
  · subst hu
    simp [List.find?]
    constructor
    · rintro (h | h) <;> simp [h]
    · rintro (h | h) <;> simp [h]
  · have h0 : ((0 : Nat) == u) = false := by simpa using hu
    simp [List.find?, h0]

/-- Witness for C2: the same three-vertex, two-edge graph built with
different payloads and with the edges 0->1 and 0->2 inserted in opposite
orders renders to the same string. -/
theorem toString_deterministic_witness : c2g1.toString = c2g2.toString :=
  toString_deterministic c2g1 c2g2 c2g1_reachable c2g2_reachable
    (fun _ => Iff.rfl) c2_edges_agree
